import Mathlib

/-!
Verification of the notebook
"Part 2 - Neural Networks in PyTorch (Exercises)" from the repository
shpotes/deep-learning-v2-pytorch.

Tensors are embedded in exact real arithmetic.  Two representations are
used, each matching the granularity the relevant code needs:
list-of-list matrices for the tensor-level softmax helper (elementwise
exp, a dim-1 reduction, a view to a column, and a broadcast division),
and Fin-indexed functions for the dense network forward computations.
-/

open scoped BigOperators

noncomputable section

/-! ## The softmax helper (notebook cell 11)

Source: `return torch.exp(x) / torch.exp(x).sum(dim=1).view(-1, 1)`.
Each torch operation is embedded separately. -/

/-- Elementwise exponential, `torch.exp(x)` on a 2-D tensor. -/
def texp (x : List (List ℝ)) : List (List ℝ) :=
  x.map (fun r => r.map Real.exp)

/-- Reduction `t.sum(dim=1)`: one sum per row. -/
def sumdim1 (x : List (List ℝ)) : List ℝ :=
  x.map (fun r => r.sum)

/-- Reshape `v.view(-1, 1)`: a length-n vector becomes an n-by-1 column. -/
def viewCol (v : List ℝ) : List (List ℝ) :=
  v.map (fun a => [a])

/-- Broadcast division `a / b` of an n-by-k tensor by an n-by-1 column:
each row of `a` is divided by the single entry of the matching row of `b`. -/
def divBroadcast (a b : List (List ℝ)) : List (List ℝ) :=
  List.zipWith (fun ra rb => ra.map (fun v => v / rb.headD 0)) a b

/-- The notebook softmax:
`torch.exp(x) / torch.exp(x).sum(dim=1).view(-1, 1)`. -/
def softmax (x : List (List ℝ)) : List (List ℝ) :=
  divBroadcast (texp x) (viewCol (sumdim1 (texp x)))

/-- Row-wise characterisation of the composed torch pipeline. -/
theorem softmax_eq_rowwise (x : List (List ℝ)) :
    softmax x = x.map (fun r => r.map (fun v => Real.exp v / (r.map Real.exp).sum)) := by
  unfold softmax divBroadcast viewCol sumdim1 texp
  induction x with
  | nil => rfl
  | cons r t ih => simp_all

/-- A list sum written as a sum over positions. -/
theorem list_sum_eq_range_sum (l : List ℝ) :
    l.sum = ∑ c ∈ Finset.range l.length, l.getD c 0 := by
  induction l with
  | nil => simp
  | cons a t ih =>
      rw [List.sum_cons, ih, List.length_cons, Finset.sum_range_succ']
      simp [List.getD]
      ring

/-- Reading the image of a map at a valid position. -/
theorem map_getD_lt {α β : Type} (f : α → β) (l : List α) (i : ℕ)
    (h : i < l.length) (d : β) (d' : α) :
    (l.map f).getD i d = f (l.getD i d') := by
  rw [List.getD_eq_getElem?_getD, List.getD_eq_getElem?_getD, List.getElem?_map,
    List.getElem?_eq_getElem h]
  rfl

/-- A row sum of exponentials as a sum over column indices. -/
theorem list_sum_map_exp_eq (r : List ℝ) (k : ℕ) (hr : r.length = k) :
    (r.map Real.exp).sum = ∑ c ∈ Finset.range k, Real.exp (r.getD c 0) := by
  rw [list_sum_eq_range_sum, List.length_map, hr]
  refine Finset.sum_congr rfl (fun c hc => ?_)
  exact map_getD_lt Real.exp r c (by rw [hr]; exact Finset.mem_range.1 hc) 0 0

/-- Dividing every element of a list by a constant divides the sum. -/
theorem list_sum_div (l : List ℝ) (s : ℝ) :
    (l.map (fun v => v / s)).sum = l.sum / s := by
  induction l with
  | nil => simp
  | cons a t ih => simp [add_div, ih]

/-- A nonempty list of positive reals has positive sum. -/
theorem list_sum_pos_of_mem_pos (l : List ℝ) (h : ∀ a ∈ l, 0 < a) (hne : 1 ≤ l.length) :
    0 < l.sum := by
  cases l with
  | nil => simp at hne
  | cons a t =>
      have ha : 0 < a := h a (List.mem_cons_self a t)
      have ht : 0 ≤ t.sum := List.sum_nonneg (fun b hb => (h b (List.mem_cons_of_mem a hb)).le)
      simpa using add_pos_of_pos_of_nonneg ha ht

/-- An element of a list of nonnegative reals is at most the sum. -/
theorem list_single_le_sum (l : List ℝ) (h : ∀ a ∈ l, 0 ≤ a) (a : ℝ) (ha : a ∈ l) :
    a ≤ l.sum := by
  induction l with
  | nil => simp at ha
  | cons b t ih =>
      rcases List.mem_cons.1 ha with rfl | hat
      · have : 0 ≤ t.sum := List.sum_nonneg (fun c hc => h c (List.mem_cons_of_mem a hc))
        simp only [List.sum_cons]
        linarith
      · have hb : 0 ≤ b := h b (List.mem_cons_self b t)
        have := ih (fun c hc => h c (List.mem_cons_of_mem b hc)) hat
        simp only [List.sum_cons]
        linarith

/-- C1: for every real matrix x of shape (n, k) with n, k at least 1, the
notebook softmax returns a matrix of the same shape whose entry at row i,
column j is exp(x[i][j]) divided by the sum over c of exp(x[i][c]). -/
theorem softmax_entry_spec (x : List (List ℝ)) (n k : ℕ)
    (hn : x.length = n) (hk : ∀ r ∈ x, r.length = k)
    (hn1 : 1 ≤ n) (hk1 : 1 ≤ k) :
    ((softmax x).length = n ∧ ∀ r ∈ softmax x, r.length = k) ∧
    ∀ i j, i < n → j < k →
      ((softmax x).getD i []).getD j 0 =
        Real.exp ((x.getD i []).getD j 0) /
          ∑ c ∈ Finset.range k, Real.exp ((x.getD i []).getD c 0) := by
  rw [softmax_eq_rowwise]
  constructor
  · constructor
    · simpa using hn
    · intro r hr
      rcases List.mem_map.1 hr with ⟨r0, hr0, rfl⟩
      simpa using hk r0 hr0
  · intro i j hi hj
    have hix : i < x.length := by omega
    rw [map_getD_lt _ x i hix [] []]
    have hrow : (x.getD i []) ∈ x := by
      rw [List.getD_eq_getElem x [] hix]
      exact List.getElem_mem hix
    have hlen : (x.getD i []).length = k := hk _ hrow
    rw [map_getD_lt _ (x.getD i []) j (by omega) 0 0]
    rw [list_sum_map_exp_eq _ k hlen]

/-- C2: every row of softmax(x) is a probability distribution: each entry is
positive, at most 1 (strictly below 1 once there are at least two columns),
and each row sums to exactly 1. -/
theorem softmax_rows_probability (x : List (List ℝ)) (k : ℕ)
    (hk : ∀ r ∈ x, r.length = k) (hk1 : 1 ≤ k) :
    ∀ row ∈ softmax x, row.sum = 1 ∧
      ∀ e ∈ row, 0 < e ∧ e ≤ 1 ∧ (2 ≤ k → e < 1) := by
  rw [softmax_eq_rowwise]
  intro row hrow
  rcases List.mem_map.1 hrow with ⟨r, hr, rfl⟩
  have hlen : r.length = k := hk r hr
  have hS : 0 < (r.map Real.exp).sum := by
    refine list_sum_pos_of_mem_pos _ (fun a ha => ?_) (by simp; omega)
    rcases List.mem_map.1 ha with ⟨v, _, rfl⟩
    exact Real.exp_pos v
  constructor
  · have hmm : r.map (fun v => Real.exp v / (r.map Real.exp).sum) =
        (r.map Real.exp).map (fun v => v / (r.map Real.exp).sum) := by
      simp [List.map_map]
    rw [hmm, list_sum_div]
    exact div_self hS.ne'
  · intro e he
    rcases List.mem_map.1 he with ⟨v, hv, rfl⟩
    refine ⟨div_pos (Real.exp_pos v) hS, ?_, ?_⟩
    · rw [div_le_one hS]
      exact list_single_le_sum _ (fun a ha => by
        rcases List.mem_map.1 ha with ⟨w, _, rfl⟩
        exact (Real.exp_pos w).le) _ (List.mem_map_of_mem Real.exp hv)
    · intro hk2
      rw [div_lt_one hS]
      rcases List.mem_iff_getElem.1 hv with ⟨j, hj, rfl⟩
      have hjd : r[j] = r.getD j 0 := (List.getD_eq_getElem r 0 hj).symm
      rw [list_sum_map_exp_eq r k hlen, hjd]
      have hjk : j ∈ Finset.range k := Finset.mem_range.2 (by omega)
      have hsplit := Finset.sum_erase_add (Finset.range k)
        (fun c => Real.exp (r.getD c 0)) hjk
      have hpos : 0 < ∑ c ∈ (Finset.range k).erase j, Real.exp (r.getD c 0) := by
        refine Finset.sum_pos (fun c _ => Real.exp_pos _) ?_
        refine Finset.card_pos.1 ?_
        rw [Finset.card_erase_of_mem hjk, Finset.card_range]
        omega
      linarith

/-- C10: on any matrix all of whose rows are nonempty, every entry of the
softmax denominator tensor torch.exp(x).sum(dim=1) is strictly positive,
so the division in softmax never divides by zero. -/
theorem softmax_denominator_pos (x : List (List ℝ))
    (h : ∀ r ∈ x, 1 ≤ r.length) :
    ∀ s ∈ sumdim1 (texp x), 0 < s := by
  intro s hs
  unfold sumdim1 texp at hs
  rw [List.map_map] at hs
  rcases List.mem_map.1 hs with ⟨r, hr, rfl⟩
  refine list_sum_pos_of_mem_pos _ (fun a ha => ?_) (by simpa using h r hr)
  rcases List.mem_map.1 ha with ⟨v, _, rfl⟩
  exact Real.exp_pos v

/-- Witness for C1 at the concrete matrix [[0]] with n = k = 1, i = j = 0. -/
theorem softmax_entry_spec_witness :
    ([[(0:ℝ)]].length = 1 ∧ (0:ℕ) < 1) ∧
    ((softmax [[(0:ℝ)]]).getD 0 []).getD 0 0 =
      Real.exp (([[(0:ℝ)]].getD 0 []).getD 0 0) /
        ∑ c ∈ Finset.range 1, Real.exp (([[(0:ℝ)]].getD 0 []).getD c 0) :=
  ⟨⟨rfl, by norm_num⟩,
    (softmax_entry_spec [[(0:ℝ)]] 1 1 rfl (by simp) (le_refl 1) (le_refl 1)).2
      0 0 (by norm_num) (by norm_num)⟩

/-- Witness for C2 at the concrete matrix [[0]]: the single row of its
softmax sums to 1. -/
theorem softmax_rows_probability_witness :
    ((softmax [[(0:ℝ)]]).getD 0 []).sum = 1 := by
  have h := softmax_rows_probability [[(0:ℝ)]] 1 (by simp) (le_refl 1)
  refine (h ((softmax [[(0:ℝ)]]).getD 0 []) ?_).1
  have hlen : 0 < (softmax [[(0:ℝ)]]).length := by
    rw [softmax_eq_rowwise]
    simp
  rw [List.getD_eq_getElem _ [] hlen]
  exact List.getElem_mem hlen

/-- Witness for C10 at the concrete matrix [[0]]. -/
theorem softmax_denominator_pos_witness :
    0 < Real.exp 0 + 0 := by
  have h := softmax_denominator_pos [[(0:ℝ)]] (by simp)
  exact h (Real.exp 0 + 0) (List.mem_singleton_self _)

/-! ## The manual forward pass (notebook cell 9)

Source:
`x = images.view(64, -1)`,
`x = torch.tanh(torch.mm(x, w1) + b1)`,
`out = torch.mm(x, w2) + b2`,
with `w1 : (784, 256)`, `b1 : (256)`, `w2 : (256, 10)`, `b2 : (10)` and
`images` of shape (64, 1, 28, 28). -/

/-- The reshape `images.view(64, -1)`: flattening each (1, 28, 28) image into
a row of 784 pixels in row-major order. -/
def flattenBatch (images : Fin 64 → Fin 1 → Fin 28 → Fin 28 → ℝ) :
    Fin 64 → Fin 784 → ℝ :=
  fun i p => images i 0 ⟨p.val / 28, by have := p.isLt; omega⟩
    ⟨p.val % 28, by have := p.isLt; omega⟩

/-- One affine layer on a batch: `torch.mm(x, w) + b` with broadcasting of
the bias over the batch dimension. -/
def mmAdd {B m n : ℕ} (x : Fin B → Fin m → ℝ) (w : Fin m → Fin n → ℝ)
    (b : Fin n → ℝ) : Fin B → Fin n → ℝ :=
  fun i j => (∑ p, x i p * w p j) + b j

/-- Elementwise `torch.tanh`. -/
def tanhMap {B n : ℕ} (x : Fin B → Fin n → ℝ) : Fin B → Fin n → ℝ :=
  fun i j => Real.tanh (x i j)

/-- The manual forward pass of cell 9, statement by statement. -/
def manualForwardOut (w1 : Fin 784 → Fin 256 → ℝ) (b1 : Fin 256 → ℝ)
    (w2 : Fin 256 → Fin 10 → ℝ) (b2 : Fin 10 → ℝ)
    (images : Fin 64 → Fin 1 → Fin 28 → Fin 28 → ℝ) : Fin 64 → Fin 10 → ℝ :=
  let x0 := flattenBatch images
  let x1 := fun i h => Real.tanh ((∑ p, x0 i p * w1 p h) + b1 h)
  fun i j => (∑ h, x1 i h * w2 h j) + b2 j

/-- C6: the manual pass flattens each image preserving all 784 = 28 x 28
pixel values (pixel (r, c) of image i lands at flat position 28 r + c, and
every flat position holds some pixel), then applies a 784 to 256 affine
layer with an elementwise activation followed by a 256 to 10 affine layer;
the output has type Fin 64 to Fin 10 to real, i.e. shape (64, 10). -/
theorem manual_forward_structure (w1 : Fin 784 → Fin 256 → ℝ) (b1 : Fin 256 → ℝ)
    (w2 : Fin 256 → Fin 10 → ℝ) (b2 : Fin 10 → ℝ)
    (images : Fin 64 → Fin 1 → Fin 28 → Fin 28 → ℝ) :
    (∀ (i : Fin 64) (r c : Fin 28),
      flattenBatch images i
        ⟨28 * r.val + c.val, by have := r.isLt; have := c.isLt; omega⟩ =
        images i 0 r c) ∧
    (∀ (i : Fin 64) (p : Fin 784), ∃ r c : Fin 28,
      flattenBatch images i p = images i 0 r c ∧ p.val = 28 * r.val + c.val) ∧
    manualForwardOut w1 b1 w2 b2 images =
      mmAdd (tanhMap (mmAdd (flattenBatch images) w1 b1)) w2 b2 := by
  refine ⟨?_, ?_, rfl⟩
  · intro i r c
    have hr := r.isLt
    have hc := c.isLt
    have h1 : (28 * r.val + c.val) / 28 = r.val := by omega
    have h2 : (28 * r.val + c.val) % 28 = c.val := by omega
    unfold flattenBatch
    congr 1 <;> [exact Fin.ext h1; exact Fin.ext h2]
  · intro i p
    have hp := p.isLt
    refine ⟨⟨p.val / 28, by omega⟩, ⟨p.val % 28, by omega⟩, rfl, ?_⟩
    simp only [Fin.val_mk]
    omega

/-! ## The two Network classes (notebook cells 14 and 18)

Both store `hidden = nn.Linear(784, 256)` and `output = nn.Linear(256, 10)`.
The first applies the stored modules `nn.Sigmoid()` and `nn.Softmax(dim=1)`;
the second calls `F.sigmoid` and `F.softmax(., dim=1)`.
A torch Linear module computes x W^T + b from its weight of shape
(out_features, in_features) and its bias. -/

/-- Parameters of a torch Linear module with given in and out features. -/
structure LinearMod (inF outF : ℕ) where
  weight : Fin outF → Fin inF → ℝ
  bias : Fin outF → ℝ

/-- Applying a Linear module to a batch: x W^T + b. -/
def LinearMod.apply {inF outF : ℕ} (m : LinearMod inF outF) {B : ℕ}
    (x : Fin B → Fin inF → ℝ) : Fin B → Fin outF → ℝ :=
  fun i j => (∑ p, x i p * m.weight j p) + m.bias j

/-- The logistic sigmoid on a real number. -/
def sigmoidR (v : ℝ) : ℝ := 1 / (1 + Real.exp (-v))

/-- The stored module `nn.Sigmoid()` applied to a batch. -/
def nnSigmoid {B n : ℕ} (x : Fin B → Fin n → ℝ) : Fin B → Fin n → ℝ :=
  fun i j => sigmoidR (x i j)

/-- The stored module `nn.Softmax(dim=1)` applied to a batch: softmax
across the columns of each row. -/
def nnSoftmaxDim1 {B n : ℕ} (x : Fin B → Fin n → ℝ) : Fin B → Fin n → ℝ :=
  fun i j => Real.exp (x i j) / ∑ c, Real.exp (x i c)

/-- The function `torch.nn.functional.sigmoid` applied elementwise. -/
def fSigmoid {B n : ℕ} (x : Fin B → Fin n → ℝ) : Fin B → Fin n → ℝ :=
  fun i j => sigmoidR (x i j)

/-- The function `torch.nn.functional.softmax(., dim=1)`. -/
def fSoftmaxDim1 {B n : ℕ} (x : Fin B → Fin n → ℝ) : Fin B → Fin n → ℝ :=
  fun i j => Real.exp (x i j) / ∑ c, Real.exp (x i c)

/-- The weight and bias tensors shared by both Network versions. -/
structure NetworkParams where
  hidden : LinearMod 784 256
  output : LinearMod 256 10

/-- forward of the first Network class (cell 14): stored modules. -/
def networkV1Forward (p : NetworkParams) {B : ℕ}
    (x : Fin B → Fin 784 → ℝ) : Fin B → Fin 10 → ℝ :=
  nnSoftmaxDim1 (p.output.apply (nnSigmoid (p.hidden.apply x)))

/-- forward of the second Network class (cell 18): functional calls. -/
def networkV2Forward (p : NetworkParams) {B : ℕ}
    (x : Fin B → Fin 784 → ℝ) : Fin B → Fin 10 → ℝ :=
  fSoftmaxDim1 (p.output.apply (fSigmoid (p.hidden.apply x)))

/-- C7: with equal weight and bias parameters the functional Network class
computes exactly the same function as the module-storing Network class on
every batch of shape (B, 784), and that common function is the 784 to 256
affine layer, sigmoid, the 256 to 10 affine layer, then row-wise softmax. -/
theorem network_functional_equiv (p : NetworkParams) (B : ℕ)
    (x : Fin B → Fin 784 → ℝ) :
    networkV2Forward p x = networkV1Forward p x ∧
    ∀ i j, networkV1Forward p x i j =
      Real.exp (p.output.apply (fun a b => sigmoidR (p.hidden.apply x a b)) i j) /
        ∑ c, Real.exp (p.output.apply (fun a b => sigmoidR (p.hidden.apply x a b)) i c) := by
  exact ⟨rfl, fun i j => rfl⟩

/-! ## The Net class (notebook cell 21) over a fallible framework

The layers are `fc1 = nn.Linear(784, 128)`, `fc2 = nn.Linear(128, 64)`,
`fc3 = nn.Linear(64, 10)`; forward computes
`x = F.relu(self.fc1(x))`, `x = F.relu(self.fc2(x))`,
`x = F.softmax(self.fc3(x))` and has no return statement, so the Python
function returns None.  Framework calls are modelled in Except so that the
framework shape error of a Linear layer applied to a vector of the wrong
width surfaces exactly as torch raises it; the notebook code wraps none of
these calls in any handler. -/

/-- The torch shape-mismatch message raised by a matrix multiply. -/
def mmShapeErr : String := "mat1 and mat2 shapes cannot be multiplied"

/-- A torch Linear layer applied to one input vector: checked against
in_features, then x W^T + b row by row. -/
def linearE (inF : ℕ) (w : List (List ℝ)) (b : List ℝ) (x : List ℝ) :
    Except String (List ℝ) :=
  if x.length = inF then
    .ok (List.zipWith (fun row bi => (List.zipWith (fun u v => u * v) x row).sum + bi) w b)
  else
    .error mmShapeErr

/-- Elementwise `F.relu` on a vector. -/
def reluVec (v : List ℝ) : List ℝ := v.map (fun a => max 0 a)

/-- `F.softmax` on a vector. -/
def softmaxVec (v : List ℝ) : List ℝ :=
  v.map (fun a => Real.exp a / (v.map Real.exp).sum)

/-- The parameter tensors of the Net instance. -/
structure NetP where
  fc1w : List (List ℝ)
  fc1b : List ℝ
  fc2w : List (List ℝ)
  fc2b : List ℝ
  fc3w : List (List ℝ)
  fc3b : List ℝ

/-- Net.forward, statement by statement: each framework call may raise, the
final softmax value is bound to the local x and then discarded because the
Python body ends without a return statement, yielding None. -/
def netForwardRun (p : NetP) (x : List ℝ) : Except String (Option (List ℝ)) :=
  match linearE 784 p.fc1w p.fc1b x with
  | .error e => .error e
  | .ok a1 =>
    match linearE 128 p.fc2w p.fc2b (reluVec a1) with
    | .error e => .error e
    | .ok a2 =>
      match linearE 64 p.fc3w p.fc3b (reluVec a2) with
      | .error e => .error e
      | .ok a3 =>
        let _x : List ℝ := softmaxVec a3
        .ok none

/-- C9: the forward method of the Net class never produces a value: on any
input it either raises a framework error or completes and returns None, so
ps = model.forward(images[0,:]) is None rather than a probability tensor. -/
theorem net_forward_returns_none (p : NetP) (x : List ℝ) :
    netForwardRun p x = .ok none ∨ ∃ e, netForwardRun p x = .error e := by
  unfold netForwardRun
  split
  · exact Or.inr ⟨_, rfl⟩
  · split
    · exact Or.inr ⟨_, rfl⟩
    · split
      · exact Or.inr ⟨_, rfl⟩
      · exact Or.inl rfl

/-- All-empty parameter tensors, used as a concrete witness input. -/
def emptyNetP : NetP := ⟨[], [], [], [], [], []⟩

/-! ## The notebook session as a statement trace

One constructor per executed top-level statement that creates a model,
touches model state, or pushes data through a forward computation, in
notebook order.  Plot, print and data-loading statements read state only. -/

/-- The executed statements of the notebook, in order. -/
inductive Stmt where
  | loadData            -- cells 3 and 5: trainloader, first batch
  | plotImage           -- cell 7: plt.imshow
  | manualForward       -- cell 9: flatten, tanh hidden layer, output layer
  | defApplySoftmax     -- cell 11: define softmax and apply it to out
  | buildNetwork        -- cell 16: model = Network()
  | buildNet            -- cell 21: model = Net()
  | showNetParams       -- cell 23: print fc1 weight and bias
  | fillNetFc1Bias      -- cell 25: model.fc1.bias.data.fill_(0)
  | normalNetFc1Weight  -- cell 26: model.fc1.weight.data.normal_(std=0.01)
  | resizeImages        -- cell 28: images.resize_(64, 1, 784)
  | netForwardCall      -- cell 28: ps = model.forward(images[img_idx,:])
  | buildSeq            -- cell 30: model = nn.Sequential(...)
  | seqForwardCall      -- cell 30: ps = model.forward(images[0,:])
  | showSeqLayer        -- cell 32: print(model[0]); model[0].weight
  | buildSeqOD          -- cell 34: model = nn.Sequential(OrderedDict(...))
  | showSeqODLayer      -- cell 36: print(model[0]); print(model.fc1)
deriving DecidableEq

/-- The whole notebook session in execution order. -/
def session : List Stmt :=
  [.loadData, .plotImage, .manualForward, .defApplySoftmax, .buildNetwork,
   .buildNet, .showNetParams, .fillNetFc1Bias, .normalNetFc1Weight,
   .resizeImages, .netForwardCall, .buildSeq, .seqForwardCall,
   .showSeqLayer, .buildSeqOD, .showSeqODLayer]

/-- The parameter tensors of every model constructed during the session. -/
inductive PName where
  | networkHiddenW | networkHiddenB | networkOutW | networkOutB
  | netFc1W | netFc1B | netFc2W | netFc2B | netFc3W | netFc3B
  | seqFc1W | seqFc1B | seqFc2W | seqFc2B | seqFc3W | seqFc3B
  | seqODFc1W | seqODFc1B | seqODFc2W | seqODFc2B | seqODOutW | seqODOutB
deriving DecidableEq

/-- Parameters owned by the Network instance of cell 16. -/
def ownedByNetwork : PName → Bool
  | .networkHiddenW | .networkHiddenB | .networkOutW | .networkOutB => true
  | _ => false

/-- Parameters owned by the Net instance of cell 21. -/
def ownedByNet : PName → Bool
  | .netFc1W | .netFc1B | .netFc2W | .netFc2B | .netFc3W | .netFc3B => true
  | _ => false

/-- Parameters owned by the nn.Sequential model of cell 30. -/
def ownedBySeq : PName → Bool
  | .seqFc1W | .seqFc1B | .seqFc2W | .seqFc2B | .seqFc3W | .seqFc3B => true
  | _ => false

/-- Parameters owned by the OrderedDict nn.Sequential model of cell 34. -/
def ownedBySeqOD : PName → Bool
  | .seqODFc1W | .seqODFc1B | .seqODFc2W | .seqODFc2B | .seqODOutW | .seqODOutB => true
  | _ => false

/-- Statements that construct a model (and so set its fresh parameters). -/
def buildsModel : Stmt → Bool
  | .buildNetwork | .buildNet | .buildSeq | .buildSeqOD => true
  | _ => false

/-- Effect of one statement on the parameter store.  `init` gives the fresh
parameter tensors a construction installs; `draw` is the stream of samples
consumed by `normal_(std=0.01)`.  `fill_(0)` overwrites every entry of the
bias with 0 in place, keeping its shape; `normal_` overwrites every entry of
the weight with a fresh sample, keeping its shape.  Every other statement
reads tensors or acts on the image batch and leaves all parameters alone. -/
def applyStmt (init : PName → List ℝ) (draw : ℕ → ℝ) :
    Stmt → (PName → List ℝ) → (PName → List ℝ)
  | .buildNetwork, st => fun p => if ownedByNetwork p then init p else st p
  | .buildNet, st => fun p => if ownedByNet p then init p else st p
  | .buildSeq, st => fun p => if ownedBySeq p then init p else st p
  | .buildSeqOD, st => fun p => if ownedBySeqOD p then init p else st p
  | .fillNetFc1Bias, st =>
      fun p => if p = .netFc1B then (st .netFc1B).map (fun _ => 0) else st p
  | .normalNetFc1Weight, st =>
      fun p => if p = .netFc1W then (st .netFc1W).mapIdx (fun i _ => draw i) else st p
  | _, st => st

/-- Running a list of statements over the parameter store. -/
def runStmts (init : PName → List ℝ) (draw : ℕ → ℝ)
    (l : List Stmt) (st : PName → List ℝ) : PName → List ℝ :=
  l.foldl (fun acc s => applyStmt init draw s acc) st

/-- C3: the notebook session contains no training step, optimizer update,
loss computation or persistence; the only statements that modify an existing
model parameter tensor are fill_(0) on model.fc1.bias and normal_(std=0.01)
on model.fc1.weight.  Every parameter other than those two still holds the
value its model construction installed at the end of the session, the two
touched tensors hold exactly the fill and the fresh normal draw, and every
statement that is neither a model construction nor one of the two
initialization calls leaves the whole parameter store unchanged. -/
theorem session_param_frame (init : PName → List ℝ) (draw : ℕ → ℝ)
    (st0 : PName → List ℝ) :
    (∀ p : PName, p ≠ .netFc1W → p ≠ .netFc1B →
      runStmts init draw session st0 p = init p) ∧
    runStmts init draw session st0 .netFc1B = (init .netFc1B).map (fun _ => 0) ∧
    runStmts init draw session st0 .netFc1W =
      (init .netFc1W).mapIdx (fun i _ => draw i) ∧
    (∀ s ∈ session, buildsModel s = false → s ≠ .fillNetFc1Bias →
      s ≠ .normalNetFc1Weight → ∀ st, applyStmt init draw s st = st) := by
  refine ⟨?_, ?_, ?_, ?_⟩
  · intro p h1 h2
    cases p <;> first
      | rfl
      | exact absurd rfl h1
      | exact absurd rfl h2
  · rfl
  · rfl
  · intro s hs hb h1 h2 st
    cases s <;> first
      | rfl
      | exact absurd rfl h1
      | exact absurd rfl h2
      | (exfalso; simp [buildsModel] at hb)

/-- Witness for C3 at concrete data: with every fresh tensor [1], a zero
draw stream, and an empty starting store, the Net fc2 weight is unchanged
by the whole session. -/
theorem session_param_frame_witness :
    runStmts (fun _ => [(1:ℝ)]) (fun _ => 0) session (fun _ => [])
      PName.netFc2W = [(1:ℝ)] := by
  have h := session_param_frame (fun _ => [(1:ℝ)]) (fun _ => 0) (fun _ => [])
  exact h.1 PName.netFc2W (by decide) (by decide)

/-- Statements that push a batch of images through a constructed model
by calling its forward method. -/
def isModelForwardCall : Stmt → Bool
  | .netForwardCall | .seqForwardCall => true
  | _ => false

/-- Statements that perform the manual matrix-multiplication forward pass. -/
def isManualForwardPass : Stmt → Bool
  | .manualForward => true
  | _ => false

/-- Counterexample for C4: the session does not contain exactly one call of
the forward computation of a constructed model; cell 28 calls
model.forward on the Net instance and cell 30 calls model.forward on the
nn.Sequential model. -/
theorem model_forward_count_ne_one :
    ((session.filter isModelForwardCall).length = 1) = False := by
  decide

/-- C4 amended: the notebook pushes images through the forward computation
of a constructed model exactly twice, once through the Net instance and once
through the nn.Sequential model, and performs exactly one manual
matrix-multiplication forward pass; all of them are untrained illustrations,
since by the frame property of the session no training ever happens. -/
theorem model_forward_count_two :
    (session.filter isModelForwardCall).length = 2 ∧
    (session.filter isManualForwardPass).length = 1 := by
  decide

/-! ## Activation functions applied by the forward computations (C5) -/

/-- The activation functions the notebook ever applies. -/
inductive Act where
  | actSigmoid | actTanh | actRelu | actSoftmax
deriving DecidableEq

/-- The sequence of non-linear activations each forward computation defined
in the notebook applies, read off its source: the manual pass applies
torch.tanh; both Network classes apply sigmoid then softmax; the Net class
and both Sequential models apply relu, relu, softmax. -/
def forwardActs : List (List Act) :=
  [[.actTanh],
   [.actSigmoid, .actSoftmax],
   [.actSigmoid, .actSoftmax],
   [.actRelu, .actRelu, .actSoftmax],
   [.actRelu, .actRelu, .actSoftmax],
   [.actRelu, .actRelu, .actSoftmax]]

/-- The activations the spec says the consumed library provides besides
linear transformation. -/
def specAllowedActs : List Act := [.actSigmoid, .actRelu, .actSoftmax]

/-- C5 fails on the code: the manual forward pass of cell 9 applies
torch.tanh as its hidden-layer activation, and tanh is not among the
sigmoid, ReLU and softmax operations the claim allows, although the
exercise text of the notebook itself instructs a sigmoid activation there. -/
theorem manual_pass_uses_tanh :
    (forwardActs.getD 0 []).contains Act.actTanh = true ∧
    specAllowedActs.contains Act.actTanh = false := by
  decide

/-! ## Unguarded application of every notebook operation (C8)

The remaining operations the claim cites are embedded over the same
fallible framework boundary: a small tensor type distinguishing 1-D from
2-D tensors for the softmax helper (whose only genuine framework failure
is the dimension error of `.sum(dim=1)` on a 1-D input), the forward
method of both Network classes (cells 14 and 18, whose framework call
sequence is identical), and the cell 28 pipeline
`images.resize_(64, 1, 784)` followed by `ps = model.forward(images[img_idx,:])`.
None of the notebook statements wraps any of these calls in a handler. -/

/-- The framework error of a reduction over a missing dimension. -/
def dimErr : String := "Dimension out of range"

/-- The framework error of an impossible elementwise broadcast. -/
def sizeErr : String := "The size of tensor a must match the size of tensor b"

/-- A torch tensor of the ranks the softmax helper can receive. -/
inductive T12 where
  | d1 (v : List ℝ)
  | d2 (m : List (List ℝ))

/-- `torch.exp` on either rank, elementwise and total. -/
def expT : T12 → T12
  | .d1 v => .d1 (v.map Real.exp)
  | .d2 m => .d2 (texp m)

/-- `t.sum(dim=1)`: defined on 2-D tensors; on a 1-D tensor the framework
raises the dimension error, which the helper does not catch. -/
def sumDim1T : T12 → Except String T12
  | .d1 _ => .error dimErr
  | .d2 m => .ok (.d1 (sumdim1 m))

/-- `t.view(-1, 1)`: any tensor with N elements becomes an N-by-1 column. -/
def viewNeg1x1T : T12 → T12
  | .d1 v => .d2 (viewCol v)
  | .d2 m => .d2 (viewCol m.flatten)

/-- Broadcast division of tensors, with the framework shape rules for the
rank combinations at issue: an (n, k) tensor divides by an (n, 1) column
or by an equal-shape tensor, an (n, k) tensor divides by a length-k
vector (this is the mismatch the cell 10 markdown warns about for
(64, 10) / (64,)), and anything else raises the size error. -/
def divT : T12 → T12 → Except String T12
  | .d2 a, .d2 b =>
      if b.length == a.length && b.all (fun r => r.length == 1) then
        .ok (.d2 (divBroadcast a b))
      else if b.length == a.length &&
          (List.zip a b).all (fun rr => rr.1.length == rr.2.length) then
        .ok (.d2 (List.zipWith (fun ra rb => List.zipWith (fun u v => u / v) ra rb) a b))
      else .error sizeErr
  | .d2 a, .d1 b =>
      if a.all (fun r => r.length == b.length) then
        .ok (.d2 (a.map (fun r => List.zipWith (fun u v => u / v) r b)))
      else .error sizeErr
  | .d1 a, .d1 b =>
      if a.length == b.length then
        .ok (.d1 (List.zipWith (fun u v => u / v) a b))
      else .error sizeErr
  | .d1 a, .d2 b =>
      if b.all (fun r => r.length == 1) then
        .ok (.d2 (b.map (fun rb => a.map (fun v => v / rb.headD 0))))
      else .error sizeErr

/-- The cell 11 softmax over the fallible boundary, written exactly as the
source line evaluates: the numerator exp, then the denominator
exp-sum-view, then the broadcast division, with no handler anywhere. -/
def softmaxT (x : T12) : Except String T12 :=
  match sumDim1T (expT x) with
  | .error e => .error e
  | .ok s => divT (expT x) (viewNeg1x1T s)

/-- On a 2-D tensor the fallible pipeline succeeds and agrees with the
total embedding softmax used for C1 and C2. -/
theorem softmaxT_d2 (m : List (List ℝ)) :
    softmaxT (.d2 m) = .ok (.d2 (softmax m)) := by
  have hcond : ((viewCol (sumdim1 (texp m))).length == (texp m).length &&
      (viewCol (sumdim1 (texp m))).all (fun r => r.length == 1)) = true := by
    simp [viewCol, sumdim1, texp, List.all_eq_true]
  show divT (.d2 (texp m)) (.d2 (viewCol (sumdim1 (texp m)))) = .ok (.d2 (softmax m))
  simp only [divT, hcond, if_true]
  rfl

/-- forward of the Network classes (cells 14 and 18) on one input vector
over the fallible boundary: hidden Linear, sigmoid, output Linear, softmax,
returned; both classes issue this same framework call sequence. -/
def networkForwardRun (hw : List (List ℝ)) (hb : List ℝ)
    (ow : List (List ℝ)) (ob : List ℝ) (x : List ℝ) : Except String (List ℝ) :=
  match linearE 784 hw hb x with
  | .error e => .error e
  | .ok h1 =>
    match linearE 256 ow ob (h1.map sigmoidR) with
    | .error e => .error e
    | .ok o1 => .ok (softmaxVec o1)

/-- Splitting a flat buffer into the given number of rows of width w. -/
def chunkRows (rows w : ℕ) (l : List ℝ) : List (List ℝ) :=
  match rows with
  | 0 => []
  | n + 1 => l.take w :: chunkRows n w (l.drop w)

/-- Padding a buffer to n elements; entries torch leaves uninitialized
when resize_ grows the storage are modelled as 0 (no theorem depends on
them). -/
def padTo (n : ℕ) (l : List ℝ) : List ℝ :=
  l ++ List.replicate (n - l.length) 0

/-- `images.resize_(64, 1, w)` on the flattened batch data: the in-place
resize reallocates as needed and reshapes row-major into 64 images of w
pixels (the size-1 channel dimension carries no data). -/
def resizeTo (rows w : ℕ) (flat : List ℝ) : List (List ℝ) :=
  chunkRows rows w (padTo (rows * w) flat)

/-- The cell 28 pipeline: `images.resize_(64, 1, 784)` followed by
`ps = model.forward(images[img_idx,:])` with img_idx = 0; the (1, 784)
slice enters Net.forward as its pixel row, and no statement between the
resize and the result inspects or handles errors. -/
def cell28Run (p : NetP) (flat : List ℝ) : Except String (Option (List ℝ)) :=
  let resized := resizeTo 64 784 flat
  netForwardRun p (resized.headD [])

/-- C8: every operation the notebook defines is applied unguarded, so any
framework failure propagates unchanged as the result.  The softmax helper
surfaces the dimension error of sum(dim=1) on a 1-D tensor and propagates
any failure of its reduction stage; Net.forward turns a wrong-width input
into the framework matmul shape error and propagates the error of each of
its three Linear stages, wherever in the chain it arises; the Network
forward of cells 14 and 18 does the same for its two Linear stages; and
the cell 28 resize-then-forward pipeline returns exactly the error its
forward call raises. -/
theorem forward_error_propagation :
    (∀ v : List ℝ, softmaxT (.d1 v) = .error dimErr) ∧
    (∀ t e, sumDim1T (expT t) = .error e → softmaxT t = .error e) ∧
    (∀ p (x : List ℝ), x.length ≠ 784 → netForwardRun p x = .error mmShapeErr) ∧
    (∀ p x e, linearE 784 p.fc1w p.fc1b x = .error e → netForwardRun p x = .error e) ∧
    (∀ p x a1 e, linearE 784 p.fc1w p.fc1b x = .ok a1 →
      linearE 128 p.fc2w p.fc2b (reluVec a1) = .error e →
      netForwardRun p x = .error e) ∧
    (∀ p x a1 a2 e, linearE 784 p.fc1w p.fc1b x = .ok a1 →
      linearE 128 p.fc2w p.fc2b (reluVec a1) = .ok a2 →
      linearE 64 p.fc3w p.fc3b (reluVec a2) = .error e →
      netForwardRun p x = .error e) ∧
    (∀ hw hb ow ob (x : List ℝ), x.length ≠ 784 →
      networkForwardRun hw hb ow ob x = .error mmShapeErr) ∧
    (∀ hw hb ow ob x e, linearE 784 hw hb x = .error e →
      networkForwardRun hw hb ow ob x = .error e) ∧
    (∀ hw hb ow ob x h1 e, linearE 784 hw hb x = .ok h1 →
      linearE 256 ow ob (h1.map sigmoidR) = .error e →
      networkForwardRun hw hb ow ob x = .error e) ∧
    (∀ p flat e, netForwardRun p ((resizeTo 64 784 flat).headD []) = .error e →
      cell28Run p flat = .error e) := by
  refine ⟨?_, ?_, ?_, ?_, ?_, ?_, ?_, ?_, ?_, ?_⟩
  · intro v
    rfl
  · intro t e h
    unfold softmaxT
    rw [h]
  · intro p x hx
    unfold netForwardRun linearE
    simp [hx]
  · intro p x e h
    unfold netForwardRun
    rw [h]
  · intro p x a1 e h1 h2
    unfold netForwardRun
    rw [h1]
    simp only []
    rw [h2]
  · intro p x a1 a2 e h1 h2 h3
    unfold netForwardRun
    rw [h1]
    simp only []
    rw [h2]
    simp only []
    rw [h3]
  · intro hw hb ow ob x hx
    unfold networkForwardRun linearE
    simp [hx]
  · intro hw hb ow ob x e h
    unfold networkForwardRun
    rw [h]
  · intro hw hb ow ob x h1 e hh1 hh2
    unfold networkForwardRun
    rw [hh1]
    simp only []
    rw [hh2]
  · intro p flat e h
    unfold cell28Run
    exact h

set_option maxRecDepth 8000 in
/-- Witness for C8 at concrete inputs: the empty input vector has width 0,
so Net.forward and the Network forward surface the framework shape error
unchanged; the softmax helper on the 1-D tensor [0] surfaces the dimension
error; and the cell 28 pipeline on an empty batch buffer returns the shape
error its forward call raises (the zero-padded resize yields a 784-pixel
row, the first Linear of the all-empty Net accepts it, and the second
Linear raises). -/
theorem forward_error_propagation_witness :
    ([] : List ℝ).length ≠ 784 ∧
    netForwardRun emptyNetP [] = .error mmShapeErr ∧
    networkForwardRun [] [] [] [] [] = .error mmShapeErr ∧
    softmaxT (.d1 [(0:ℝ)]) = .error dimErr ∧
    cell28Run emptyNetP [] = .error mmShapeErr := by
  refine ⟨by decide, ?_, ?_, ?_, ?_⟩
  · exact forward_error_propagation.2.2.1 emptyNetP [] (by decide)
  · exact forward_error_propagation.2.2.2.2.2.2.1 [] [] [] [] [] (by decide)
  · exact forward_error_propagation.1 [(0:ℝ)]
  · exact forward_error_propagation.2.2.2.2.2.2.2.2.2 emptyNetP [] mmShapeErr (by rfl)
